import Mathlib

/-!
# Verification of `pyfile_summariser` (`src/pyfile_summariser/cli.py`)

The tool parses a Python file, records the line ranges of all function and
method bodies, keeps the column-0 comments that lie outside those ranges,
rewrites the syntax tree so that every function body becomes
`[optional docstring, placeholder]` and every module/class keeps only its
docstring and its def children, and finally re-renders the tree, placing the
kept comments in front.

This file gives a shallow embedding of the Python AST fragment the tool
manipulates, direct translations of the helpers `is_docstring`,
`collect_body_ranges`, `get_toplevel_comments`, the `Outline` transformer and
`summarise`, and executable models of the external capabilities the script
calls (`ast.parse`, `tokenize.generate_tokens`, `ast.unparse`) on the
line-oriented fragment exercised here.
-/

namespace PySummariser

/-- Python expressions, distinguished exactly as far as `cli.py` needs:
`is_docstring` tests for `ast.Expr` wrapping `ast.Constant` wrapping a `str`
value, so string constants are explicit, other constants and all remaining
expression forms are carried as opaque rendered text. -/
inductive PyExpr where
  | constStr (s : String)
  | constOther (text : String)
  | otherExpr (text : String)

/-- Python statements, restricted to the shapes `cli.py` inspects.  Every
statement records its 1-based `lineno`; function and class definitions also
record `end_lineno` (`none` models the pre-3.8 fallback of
`collect_body_ranges`).  `functionDef` covers `ast.FunctionDef` and
`ast.AsyncFunctionDef` via `isAsync`; `other` covers every remaining
statement kind (imports, assignments, returns, compound statements, ...),
keeping its rendered text and, for compound statements, its nested
statements as `children` so that `ast.walk` can reach them. -/
inductive Stmt where
  | expr (e : PyExpr) (lineno : Nat)
  | functionDef (isAsync : Bool) (name : String) (argsText : String)
      (body : List Stmt) (lineno : Nat) (endLineno : Option Nat)
  | classDef (name : String) (basesText : String) (body : List Stmt)
      (lineno : Nat) (endLineno : Option Nat)
  | other (payload : String) (children : List Stmt) (lineno : Nat)

/-- An `ast.Module`: a list of top-level statements. -/
structure Module where
  body : List Stmt

/-- The `lineno` attribute common to all statement nodes. -/
def Stmt.linenoOf : Stmt → Nat
  | .expr _ l => l
  | .functionDef _ _ _ _ l _ => l
  | .classDef _ _ _ l _ => l
  | .other _ _ l => l

/-- `isinstance(n, (ast.FunctionDef, ast.AsyncFunctionDef))`. -/
def Stmt.isFunctionDef : Stmt → Bool
  | .functionDef _ _ _ _ _ _ => true
  | _ => false

/-- `isinstance(child, (ast.ClassDef, ast.FunctionDef, ast.AsyncFunctionDef))`. -/
def Stmt.isDefStmt : Stmt → Bool
  | .functionDef _ _ _ _ _ _ => true
  | .classDef _ _ _ _ _ => true
  | _ => false

/-- Translation of `is_docstring` (cli.py lines 22-28): the node is an
`ast.Expr` whose value is an `ast.Constant` holding a `str`. -/
def is_docstring : Stmt → Bool
  | .expr (.constStr _) _ => true
  | _ => false

/-- `n.body[0].lineno if n.body else n.lineno + 1` (cli.py line 42). -/
def bodyStartLine (body : List Stmt) (lineno : Nat) : Nat :=
  match body with
  | [] => lineno + 1
  | b :: _ => b.linenoOf

mutual

/-- The contribution of one node (and the nodes below it) to
`collect_body_ranges` (cli.py lines 31-44).  `ast.walk` enumerates every
node breadth-first; the order is irrelevant because the result is consumed
as a set of lines, so the walk is modelled depth-first. -/
def collect_body_ranges_stmt : Stmt → List (Nat × Nat)
  | .expr _ _ => []
  | .functionDef _ _ _ body l e =>
      (match e with
       | none => []
       | some eL => [(bodyStartLine body l, eL)]) ++ collect_body_ranges_list body
  | .classDef _ _ body _ _ => collect_body_ranges_list body
  | .other _ children _ => collect_body_ranges_list children

/-- `collect_body_ranges_stmt`, over a list of statements. -/
def collect_body_ranges_list : List Stmt → List (Nat × Nat)
  | [] => []
  | s :: rest => collect_body_ranges_stmt s ++ collect_body_ranges_list rest

end

/-- Translation of `collect_body_ranges` (cli.py lines 31-44) on a module. -/
def collect_body_ranges (m : Module) : List (Nat × Nat) :=
  collect_body_ranges_list m.body

/-- A token of `tokenize.generate_tokens`, restricted to the fields
`get_toplevel_comments` consults.  `isComment` is
`tok.type == tokenize.COMMENT`; `startLine`/`startCol` are `tok.start`;
`line` is the full physical source line the token sits on. -/
structure Token where
  isComment : Bool
  startLine : Nat
  startCol : Nat
  line : String

/-- Python `s.rstrip("\n")`: remove every trailing newline character. -/
def rstripNewline (s : String) : String :=
  ⟨(s.data.reverse.dropWhile (fun c => c = '\n')).reverse⟩

/-- `line_no in body_lines`, where `body_lines` is the union of
`range(s, e + 1)` over all collected ranges (cli.py lines 53-55). -/
def inBodyLines (body_ranges : List (Nat × Nat)) (lineNo : Nat) : Bool :=
  body_ranges.any (fun r => decide (r.1 ≤ lineNo ∧ lineNo ≤ r.2))

/-- Translation of `get_toplevel_comments` (cli.py lines 47-63), taking the
token stream produced by `tokenize.generate_tokens` as input.  The Python
loop appends `tok.line.rstrip("\n")` to `keep` whenever the token is a
comment whose line is outside every body range and whose column is 0. -/
def get_toplevel_comments (toks : List Token) (body_ranges : List (Nat × Nat)) :
    List String :=
  toks.foldl
    (fun keep tok =>
      if tok.isComment then
        if !inBodyLines body_ranges tok.startLine && tok.startCol == 0 then
          keep ++ [rstripNewline tok.line]
        else keep
      else keep)
    []

/-- The placeholder statement
`ast.Expr(value=ast.Constant(value="(implementation not shown)", kind=None))`
(cli.py lines 105-107).  Its position metadata is filled in later by
`ast.fix_missing_locations` and never read by the renderer; the model
records line 0. -/
def placeholder : Stmt := .expr (.constStr "(implementation not shown)") 0

/-- Translation of `Outline._strip_fn` (cli.py lines 97-110): keep the
docstring if the body starts with one, then append the placeholder; the
node is otherwise unchanged.  Serves as `visit_FunctionDef` and
`visit_AsyncFunctionDef`. -/
def strip_fn : Stmt → Stmt
  | .functionDef a n ar body l e =>
      .functionDef a n ar
        ((match body with
          | [] => []
          | b :: _ => if is_docstring b then [b] else []) ++ [placeholder]) l e
  | s => s

/-- Translation of `Outline.visit_ClassDef` (cli.py lines 85-94): start
`new_body` with the class docstring when the first statement is one, then
loop over the original body appending `self.visit(child)` (which dispatches
to `_strip_fn`) for every function or method child. -/
def visit_ClassDef : Stmt → Stmt
  | .classDef n b body l e =>
      .classDef n b
        (body.foldl
          (fun acc child =>
            if child.isFunctionDef then acc ++ [strip_fn child] else acc)
          (match body with
           | [] => []
           | c :: _ => if is_docstring c then [c] else [])) l e
  | s => s

/-- `self.visit(child)` as invoked from `visit_Module`: the dispatch of
`ast.NodeTransformer` sends class definitions to `visit_ClassDef` and
function/method definitions to `_strip_fn`; no other node kind is visited
there. -/
def visitChild (s : Stmt) : Stmt :=
  match s with
  | .classDef _ _ _ _ _ => visit_ClassDef s
  | .functionDef _ _ _ _ _ _ => strip_fn s
  | s => s

/-- Translation of `Outline.visit_Module` (cli.py lines 73-82): start
`new_body` with the module docstring when the first statement is one, then
loop over the original body appending `self.visit(child)` for every
class/function/method child. -/
def visit_Module (m : Module) : Module :=
  ⟨m.body.foldl
    (fun acc child =>
      if child.isDefStmt then acc ++ [visitChild child] else acc)
    (match m.body with
     | [] => []
     | c :: _ => if is_docstring c then [c] else [])⟩

/-- `Outline().visit(tree)` on a parsed module (cli.py line 127) dispatches
to `visit_Module`.  `ast.fix_missing_locations` (line 128) only fills
position metadata, which the renderer never reads, so it is the identity in
this model. -/
def outline (m : Module) : Module := visit_Module m

/-! ## Model of `ast.unparse` (cli.py line 137)

`ast._Unparser` emits one line per simple statement, indents nested blocks
by four spaces, inserts no blank lines, renders the first statement of a
module/class/function body as a triple-quoted docstring when it is a string
constant (`_write_docstring`), and renders every other string constant with
`repr`-style single quotes.  The model covers exactly the fragment the
transformed trees contain; string escaping is not modelled (the strings at
play contain no quotes or backslashes). -/

/-- Four spaces per indentation level, as `ast._Unparser` writes them. -/
def indentStr : Nat → String
  | 0 => ""
  | n + 1 => indentStr n ++ "    "

/-- `repr` of a quote-free `str` value: single quotes. -/
def reprStr (s : String) : String := "'" ++ s ++ "'"

/-- `_write_docstring`: triple double quotes. -/
def docstringStr (s : String) : String := "\"\"\"" ++ s ++ "\"\"\""

/-- Rendered text of an expression statement's expression. -/
def unparseExpr : PyExpr → String
  | .constStr s => reprStr s
  | .constOther t => t
  | .otherExpr t => t

mutual

/-- The rendered lines of one statement at indentation `ind`. -/
def unparseStmt (ind : Nat) : Stmt → List String
  | .expr e _ => [indentStr ind ++ unparseExpr e]
  | .functionDef a n ar body _ _ =>
      (indentStr ind ++ (if a then "async def " else "def ")
        ++ n ++ "(" ++ ar ++ "):")
        :: unparseBody (ind + 1) body
  | .classDef n b body _ _ =>
      (indentStr ind ++ "class " ++ n
        ++ (if b = "" then "" else "(" ++ b ++ ")") ++ ":")
        :: unparseBody (ind + 1) body
  | .other p _ _ => [indentStr ind ++ p]

/-- The rendered lines of a list of statements, none in docstring position. -/
def unparseStmts (ind : Nat) : List Stmt → List String
  | [] => []
  | s :: rest => unparseStmt ind s ++ unparseStmts ind rest

/-- The rendered lines of a module/class/function body: a leading string
constant is in docstring position and is written triple-quoted. -/
def unparseBody (ind : Nat) : List Stmt → List String
  | [] => []
  | .expr (.constStr d) _ :: rest =>
      (indentStr ind ++ docstringStr d) :: unparseStmts ind rest
  | s :: rest => unparseStmt ind s ++ unparseStmts ind rest

end

/-- `ast.unparse` on a module: the rendered lines joined by newlines. -/
def unparseModule (m : Module) : String :=
  String.intercalate "\n" (unparseBody 0 m.body)

/-! ## Model of `tokenize.generate_tokens` (cli.py line 58)

`get_toplevel_comments` only looks at `COMMENT` tokens, so the model emits
exactly those: for every physical line, the first `#` that is not inside a
single-line string literal starts a comment token whose `start` is the
line's 1-based number and the `#`'s 0-based column.  (Strings spanning
several lines are outside the modelled fragment.)  Python's `tok.line`
includes the terminating newline, which `get_toplevel_comments` strips
again; the model stores the line without it, which `rstripNewline` leaves
unchanged. -/

/-- Split a character list at newline characters. -/
def splitLinesChars : List Char → List (List Char)
  | [] => [[]]
  | c :: rest =>
      if c = '\n' then [] :: splitLinesChars rest
      else
        match splitLinesChars rest with
        | [] => [[c]]
        | l :: ls => (c :: l) :: ls

/-- The 1-based numbered lines of a text. -/
def numberedLines (src : String) : List (Nat × List Char) :=
  List.enumFrom 1 (splitLinesChars src.data)

/-- Column of the first `#` outside simple quotes on one line, scanning with
a one-character quote state (`none`, or the opening quote character). -/
def findCommentCol : List Char → Nat → Option Char → Option Nat
  | [], _, _ => none
  | c :: rest, col, q =>
      match q with
      | none =>
          if c = '#' then some col
          else if c.toNat = 39 ∨ c = '"' then findCommentCol rest (col + 1) (some c)
          else findCommentCol rest (col + 1) none
      | some qc =>
          if c = qc then findCommentCol rest (col + 1) none
          else findCommentCol rest (col + 1) (some qc)

/-- The `COMMENT` tokens of a source text. -/
def tokenizeComments (src : String) : List Token :=
  (numberedLines src).filterMap
    (fun nl =>
      match findCommentCol nl.2 0 none with
      | some col => some ⟨true, nl.1, col, ⟨nl.2⟩⟩
      | none => none)

/-! ## Model of `ast.parse` (cli.py line 121)

An executable parser for the line-oriented Python fragment at play: blocks
indented by four spaces, `def`/`async def`/`class` headers, single-line
string-literal statements, and arbitrary other single-line simple
statements kept as opaque text.  Comment-only and blank lines produce no
statement, exactly as `ast.parse` ignores them.  Statements receive their
1-based `lineno`; definitions receive `end_lineno` = the end line of the
last statement of their block.  `none` is the `SyntaxError` outcome. -/

/-- Number of leading space characters of a line. -/
def countIndent : List Char → Nat
  | [] => 0
  | c :: rest => if c = ' ' then countIndent rest + 1 else 0

/-- A physical line carrying a statement: its 1-based number, its
indentation width and its content with the indentation removed. -/
structure PLine where
  lineno : Nat
  indentW : Nat
  content : List Char

/-- The statement-carrying lines of a source text: blank and comment-only
lines are discarded, the rest keep their line number and indentation. -/
def toPLines (src : String) : List PLine :=
  (numberedLines src).filterMap
    (fun nl =>
      let ind := countIndent nl.2
      let content := nl.2.drop ind
      match content with
      | [] => none
      | c :: _ => if c = '#' then none else some ⟨nl.1, ind, content⟩)

/-- Split a character list at the first occurrence of `c`, dropping it. -/
def splitAtChar (c : Char) : List Char → Option (List Char × List Char)
  | [] => none
  | x :: rest =>
      if x = c then some ([], rest)
      else (splitAtChar c rest).map (fun p => (x :: p.1, p.2))

/-- Whether `cs` ends with the suffix `suf`. -/
def endsWithChars (suf cs : List Char) : Bool :=
  List.isPrefixOf suf.reverse cs.reverse

/-- Drop the last `n` characters. -/
def dropLastN (n : Nat) (cs : List Char) : List Char :=
  cs.take (cs.length - n)

/-- Parse a `def name(args):` or `async def name(args):` header line into
(isAsync, name, argsText). -/
def parseDefHeader (content : List Char) : Option (Bool × String × String) :=
  let asyncPre := "async def ".data
  let defPre := "def ".data
  let go : Bool → List Char → Option (Bool × String × String) := fun a rest =>
    match splitAtChar '(' rest with
    | none => none
    | some (nameCs, afterParen) =>
        if nameCs.isEmpty then none
        else if endsWithChars "):".data afterParen then
          some (a, ⟨nameCs⟩, ⟨dropLastN 2 afterParen⟩)
        else none
  if List.isPrefixOf asyncPre content then go true (content.drop asyncPre.length)
  else if List.isPrefixOf defPre content then go false (content.drop defPre.length)
  else none

/-- Parse a `class name:` or `class name(bases):` header line into
(name, basesText). -/
def parseClassHeader (content : List Char) : Option (String × String) :=
  let pre := "class ".data
  if List.isPrefixOf pre content then
    let rest := content.drop pre.length
    if endsWithChars ":".data rest then
      let core := dropLastN 1 rest
      match splitAtChar '(' core with
      | none => if core.isEmpty then none else some (⟨core⟩, "")
      | some (nameCs, afterParen) =>
          if nameCs.isEmpty then none
          else if endsWithChars ")".data afterParen then
            some (⟨nameCs⟩, ⟨dropLastN 1 afterParen⟩)
          else none
    else none
  else none

/-- A simple (one-line) statement: a triple-quoted or single-quoted string
literal becomes an `ast.Expr` of an `ast.Constant` `str`; anything else is
kept as opaque statement text. -/
def parseSimple (content : List Char) (lineno : Nat) : Stmt :=
  let q : Char := Char.ofNat 39
  let triple := ['"', '"', '"']
  if List.isPrefixOf triple content ∧ endsWithChars triple content ∧
      6 ≤ content.length then
    .expr (.constStr ⟨dropLastN 3 (content.drop 3)⟩) lineno
  else if List.isPrefixOf [q] content ∧ endsWithChars [q] content ∧
      2 ≤ content.length then
    .expr (.constStr ⟨dropLastN 1 (content.drop 1)⟩) lineno
  else
    .other ⟨content⟩ [] lineno

/-- The `end_lineno` attribute of a parsed statement. -/
def Stmt.endLineOf : Stmt → Nat
  | .functionDef _ _ _ _ l e => e.getD l
  | .classDef _ _ _ l e => e.getD l
  | s => s.linenoOf

/-- End line of the last statement of a block (`dflt` if the block is empty). -/
def lastEndLine (body : List Stmt) (dflt : Nat) : Nat :=
  ((body.getLast?).map Stmt.endLineOf).getD dflt

/-- Parse the statements of one block at indentation `ind`, returning them
with the unconsumed lines (those of enclosing blocks).  `fuel` dominates the
recursion depth; `toPLines src |>.length + 1` is always enough. -/
def parseStmts (fuel : Nat) (ls : List PLine) (ind : Nat) :
    Option (List Stmt × List PLine) :=
  match fuel with
  | 0 => none
  | fuel + 1 =>
      match ls with
      | [] => some ([], [])
      | pl :: rest =>
          if pl.indentW < ind then some ([], pl :: rest)
          else if ind < pl.indentW then none
          else
            match parseDefHeader pl.content with
            | some (a, n, ar) =>
                (match parseStmts fuel rest (ind + 4) with
                 | none => none
                 | some (body, rest2) =>
                     if body.isEmpty then none
                     else
                       match parseStmts fuel rest2 ind with
                       | none => none
                       | some (more, rest3) =>
                           some (.functionDef a n ar body pl.lineno
                                   (some (lastEndLine body pl.lineno)) :: more,
                                 rest3))
            | none =>
                match parseClassHeader pl.content with
                | some (n, b) =>
                    (match parseStmts fuel rest (ind + 4) with
                     | none => none
                     | some (body, rest2) =>
                         if body.isEmpty then none
                         else
                           match parseStmts fuel rest2 ind with
                           | none => none
                           | some (more, rest3) =>
                               some (.classDef n b body pl.lineno
                                       (some (lastEndLine body pl.lineno)) :: more,
                                     rest3))
                | none =>
                    match parseStmts fuel rest ind with
                    | none => none
                    | some (more, rest2) =>
                        some (parseSimple pl.content pl.lineno :: more, rest2)

/-- `ast.parse` on a source text: parse the top-level block and require all
lines consumed; `none` is the `SyntaxError` outcome. -/
def parsePy (src : String) : Option Module :=
  let pls := toPLines src
  match parseStmts (pls.length + 1) pls 0 with
  | some (stmts, []) => some ⟨stmts⟩
  | _ => none

/-- Translation of `summarise` (cli.py lines 119-139).  Reading the file is
out of scope (spec §1): the decoded source text is the input.  A parse
failure is the propagated `SyntaxError`. -/
def summarise (source : String) : Option String :=
  match parsePy source with
  | none => none
  | some tree =>
      let body_ranges := collect_body_ranges tree
      let tree2 := outline tree
      let comments := get_toplevel_comments (tokenizeComments source) body_ranges
      let pieces :=
        (if comments.isEmpty then ([] : List String)
         else [String.intercalate "\n" comments]) ++ [unparseModule tree2]
      some (String.intercalate "\n\n" pieces)

/-! ## Shared lemmas -/

/-- The append-in-a-loop pattern of `visit_Module`/`visit_ClassDef`:
folding `if p x then acc ++ [f x] else acc` is filtering then mapping. -/
theorem foldl_append_filter_map {α β : Type} (p : α → Bool) (f : α → β) :
    ∀ (l : List α) (init : List β),
      l.foldl (fun acc x => if p x then acc ++ [f x] else acc) init
        = init ++ (l.filter p).map f := by
  intro l
  induction l with
  | nil => intro init; simp
  | cons x xs ih =>
      intro init
      cases hx : p x with
      | true => simp [List.foldl_cons, hx, ih, List.filter_cons]
      | false => simp [List.foldl_cons, hx, ih, List.filter_cons]

/-- The list the docstring check of lines 75-76 / 87-88 / 101-102 starts
`new_body` with, phrased through `head?`. -/
def docstringInit (body : List Stmt) : List Stmt :=
  match body.head? with
  | some c => if is_docstring c then [c] else []
  | none => []

theorem visit_Module_body_eq (m : Module) :
    (visit_Module m).body
      = docstringInit m.body ++ (m.body.filter Stmt.isDefStmt).map visitChild := by
  show m.body.foldl _ _ = _
  rw [foldl_append_filter_map]
  cases m.body <;> rfl

theorem visit_ClassDef_body_eq (n b : String) (body : List Stmt) (l : Nat)
    (e : Option Nat) :
    visit_ClassDef (.classDef n b body l e)
      = .classDef n b
          (docstringInit body ++ (body.filter Stmt.isFunctionDef).map strip_fn)
          l e := by
  show Stmt.classDef n b (body.foldl _ _) l e = _
  rw [foldl_append_filter_map]
  cases body <;> rfl

theorem strip_fn_eq (a : Bool) (n ar : String) (body : List Stmt) (l : Nat)
    (e : Option Nat) :
    strip_fn (.functionDef a n ar body l e)
      = .functionDef a n ar (docstringInit body ++ [placeholder]) l e := by
  cases body <;> rfl

/-! ## Claims -/

/-- C1: the transformed body of every function or method (asynchronous
variants included via `isAsync`; `strip_fn` is what the transformer applies
to every function node it visits, at any nesting depth) equals the original
first statement when that statement is a standalone string-literal
docstring, followed by exactly one placeholder statement whose value is the
fixed string "(implementation not shown)"; every other original body
statement is discarded. -/
theorem strip_fn_body_spec (a : Bool) (n ar : String) (body : List Stmt)
    (l : Nat) (e : Option Nat) :
    strip_fn (.functionDef a n ar body l e)
      = .functionDef a n ar
          ((match body.head? with
            | some b => if is_docstring b then [b] else []
            | none => []) ++
            [Stmt.expr (.constStr "(implementation not shown)") 0]) l e := by
  cases body <;> rfl

/-- C4: the transformed module's child list equals the module docstring
(when the first statement is a standalone string literal) followed by the
transformed versions of exactly the top-level class and function/method
definitions in original order; consequently every statement of the
transformed module is either that docstring or the transform of an original
def child, so every other top-level statement is dropped and contributes
nothing to the rendered output. -/
theorem visit_Module_body_spec (m : Module) :
    (visit_Module m).body
        = (match m.body.head? with
            | some c => if is_docstring c then [c] else []
            | none => []) ++ (m.body.filter Stmt.isDefStmt).map visitChild ∧
      ∀ s ∈ (visit_Module m).body,
        (∃ c, m.body.head? = some c ∧ is_docstring c ∧ s = c) ∨
        (∃ c ∈ m.body, Stmt.isDefStmt c ∧ s = visitChild c) := by
  have h := visit_Module_body_eq m
  constructor
  · exact h
  · intro s hs
    rw [h] at hs
    rcases List.mem_append.mp hs with hd | hm
    · left
      unfold docstringInit at hd
      cases hq : m.body.head? with
      | none => rw [hq] at hd; simp at hd
      | some c =>
          rw [hq] at hd
          cases hdoc : is_docstring c with
          | false => simp [hdoc] at hd
          | true =>
              simp [hdoc] at hd
              exact ⟨c, rfl, hdoc, hd⟩
    · right
      rcases List.mem_map.mp hm with ⟨c, hc, hcs⟩
      exact ⟨c, (List.mem_filter.mp hc).1, (List.mem_filter.mp hc).2, hcs.symm⟩

/-- C5: the transformed class body equals the class docstring (when the
first statement is a standalone string literal) followed by the stripped
versions of exactly the directly nested function/method definitions in
original order; consequently every statement of the transformed class body
is either that docstring or the stripped form of an original method, so all
other class-body statements — class attributes and nested class definitions
included — are dropped. -/
theorem visit_ClassDef_body_spec (n b : String) (body : List Stmt) (l : Nat)
    (e : Option Nat) :
    visit_ClassDef (.classDef n b body l e)
        = .classDef n b
            ((match body.head? with
              | some c => if is_docstring c then [c] else []
              | none => []) ++ (body.filter Stmt.isFunctionDef).map strip_fn)
            l e ∧
      ∀ s ∈ (docstringInit body ++ (body.filter Stmt.isFunctionDef).map strip_fn),
        (∃ c, body.head? = some c ∧ is_docstring c ∧ s = c) ∨
        (∃ c ∈ body, Stmt.isFunctionDef c ∧ s = strip_fn c) := by
  constructor
  · exact visit_ClassDef_body_eq n b body l e
  · intro s hs
    rcases List.mem_append.mp hs with hd | hm
    · left
      unfold docstringInit at hd
      cases hq : body.head? with
      | none => rw [hq] at hd; simp at hd
      | some c =>
          rw [hq] at hd
          cases hdoc : is_docstring c with
          | false => simp [hdoc] at hd
          | true =>
              simp [hdoc] at hd
              exact ⟨c, rfl, hdoc, hd⟩
    · right
      rcases List.mem_map.mp hm with ⟨c, hc, hcs⟩
      exact ⟨c, (List.mem_filter.mp hc).1, (List.mem_filter.mp hc).2, hcs.symm⟩

/-- C2: a comment line is kept exactly when the comment token starts at
column 0 and its line number lies outside the union of the body ranges;
the kept entries are the full source lines right-trimmed of trailing
newlines, in source order (filter of the token stream), and membership in
the body-line set is membership in some inclusive range. -/
theorem get_toplevel_comments_spec (toks : List Token)
    (body_ranges : List (Nat × Nat)) :
    get_toplevel_comments toks body_ranges
        = (toks.filter
            (fun tok => tok.isComment && tok.startCol == 0 &&
              !inBodyLines body_ranges tok.startLine)).map
            (fun tok => rstripNewline tok.line) ∧
      ∀ lineNo, inBodyLines body_ranges lineNo = true ↔
        ∃ r ∈ body_ranges, r.1 ≤ lineNo ∧ lineNo ≤ r.2 := by
  constructor
  · have hfun :
        (fun (keep : List String) (tok : Token) =>
          if tok.isComment then
            if !inBodyLines body_ranges tok.startLine && tok.startCol == 0 then
              keep ++ [rstripNewline tok.line]
            else keep
          else keep)
          = (fun (keep : List String) (tok : Token) =>
              if (tok.isComment && tok.startCol == 0 &&
                  !inBodyLines body_ranges tok.startLine) then
                keep ++ [rstripNewline tok.line]
              else keep) := by
      funext keep tok
      cases hcm : tok.isComment <;>
        cases hin : inBodyLines body_ranges tok.startLine <;>
          cases hcol : tok.startCol == 0 <;> simp [hcm, hin, hcol]
    show toks.foldl _ [] = _
    rw [hfun, foldl_append_filter_map
      (fun tok => tok.isComment && tok.startCol == 0 &&
        !inBodyLines body_ranges tok.startLine)
      (fun tok => rstripNewline tok.line) toks []]
    rfl
  · intro lineNo
    simp [inBodyLines]

/-! ## The walk of `collect_body_ranges` (`ast.walk`) -/

mutual

/-- Every node of the subtree rooted at one statement, as `ast.walk`
enumerates them (its breadth-first order is irrelevant here: only
membership matters). -/
def stmtNodes : Stmt → List Stmt
  | .expr e l => [.expr e l]
  | .functionDef a n ar body l e =>
      .functionDef a n ar body l e :: stmtsNodes body
  | .classDef n b body l e => .classDef n b body l e :: stmtsNodes body
  | .other p c l => .other p c l :: stmtsNodes c

/-- `stmtNodes` over a list of statements. -/
def stmtsNodes : List Stmt → List Stmt
  | [] => []
  | s :: rest => stmtNodes s ++ stmtsNodes rest

end

/-- Every node `ast.walk` reaches from a module. -/
def moduleNodes (m : Module) : List Stmt := stmtsNodes m.body

mutual

theorem ranges_sub_stmt (s t : Stmt) (h : t ∈ stmtNodes s) :
    collect_body_ranges_stmt t ⊆ collect_body_ranges_stmt s := by
  cases s with
  | expr e l =>
      rw [show stmtNodes (.expr e l) = [.expr e l] from rfl] at h
      rw [List.mem_singleton.mp h]
      exact fun x hx => hx
  | functionDef a n ar body l e =>
      rcases List.mem_cons.mp h with heq | hm
      · rw [heq]; exact fun x hx => hx
      · exact (ranges_sub_list body t hm).trans
          (by cases e <;> simp [collect_body_ranges_stmt])
  | classDef n b body l e =>
      rcases List.mem_cons.mp h with heq | hm
      · rw [heq]; exact fun x hx => hx
      · exact ranges_sub_list body t hm
  | other p c l =>
      rcases List.mem_cons.mp h with heq | hm
      · rw [heq]; exact fun x hx => hx
      · exact ranges_sub_list c t hm

theorem ranges_sub_list (l : List Stmt) (t : Stmt) (h : t ∈ stmtsNodes l) :
    collect_body_ranges_stmt t ⊆ collect_body_ranges_list l := by
  cases l with
  | nil => simp [stmtsNodes] at h
  | cons s rest =>
      rw [show stmtsNodes (s :: rest) = stmtNodes s ++ stmtsNodes rest from rfl]
        at h
      rcases List.mem_append.mp h with hs | hr
      · exact (ranges_sub_stmt s t hs).trans
          (by simp [collect_body_ranges_list])
      · exact (ranges_sub_list rest t hr).trans
          (by simp [collect_body_ranges_list])

end

/-- C6 (amended): for every function/method node with known end position
reached by the walk, the collected range is the inclusive pair whose start
is the line of the first body statement — or one line past the signature
when the body is empty — and whose end is the recorded end line; the
signature line is outside that range whenever the start line is beyond the
signature line (so in particular for every multi-line layout and for every
empty body), but not in general: a one-line `def` places its body, and
hence its range, on the signature line itself. -/
theorem collect_body_ranges_spec (m : Module) (a : Bool) (n ar : String)
    (body : List Stmt) (l eL : Nat)
    (h : Stmt.functionDef a n ar body l (some eL) ∈ moduleNodes m) :
    (bodyStartLine body l, eL) ∈ collect_body_ranges m ∧
      (body = [] → bodyStartLine body l = l + 1) ∧
      (∀ b bs, body = b :: bs → bodyStartLine body l = b.linenoOf) ∧
      (l < bodyStartLine body l → ¬ (bodyStartLine body l ≤ l ∧ l ≤ eL)) := by
  refine ⟨?_, ?_, ?_, ?_⟩
  · have h1 : (bodyStartLine body l, eL)
        ∈ collect_body_ranges_stmt (.functionDef a n ar body l (some eL)) := by
      simp [collect_body_ranges_stmt]
    exact ranges_sub_list m.body _ h h1
  · intro hb; rw [hb]; rfl
  · intro b bs hb; rw [hb]; rfl
  · intro hlt hmem; omega

/-- C6 counterexample: for the tree of the one-line function
`def f(x): return x + 1` — first body statement on the signature line 1,
end line 1 — the collected body range is (1, 1), an inclusive range that
contains the signature line 1, refuting "for every function the signature
line is not a member of its body range". -/
theorem collect_body_ranges_signature_in_range :
    collect_body_ranges
        ⟨[.functionDef false "f" "x" [.other "return x + 1" [] 1] 1 (some 1)]⟩
        = [(1, 1)] ∧
      Stmt.functionDef false "f" "x" [.other "return x + 1" [] 1] 1 (some 1)
        ∈ moduleNodes
          ⟨[.functionDef false "f" "x" [.other "return x + 1" [] 1] 1 (some 1)]⟩ ∧
      (Stmt.functionDef false "f" "x" [.other "return x + 1" [] 1] 1
          (some 1)).linenoOf = 1 ∧
      1 ∈ Finset.Icc 1 1 := by
  refine ⟨rfl, ?_, rfl, by decide⟩
  show _ ∈ stmtsNodes _
  rw [show stmtsNodes
      [.functionDef false "f" "x" [.other "return x + 1" [] 1] 1 (some 1)]
      = Stmt.functionDef false "f" "x" [.other "return x + 1" [] 1] 1 (some 1)
        :: stmtsNodes [.other "return x + 1" [] 1] from rfl]
  exact List.mem_cons_self _ _

/-- Witness for `collect_body_ranges_spec`: the two-line function
`def g():` / `    return 1` has body range (2, 2), and its signature
line 1 is outside it. -/
theorem collect_body_ranges_spec_witness :
    (bodyStartLine [Stmt.other "return 1" [] 2] 1, 2)
        ∈ collect_body_ranges
          ⟨[.functionDef false "g" "" [.other "return 1" [] 2] 1 (some 2)]⟩ ∧
      ([Stmt.other "return 1" [] 2] = ([] : List Stmt) →
        bodyStartLine [Stmt.other "return 1" [] 2] 1 = 1 + 1) ∧
      (∀ b bs, [Stmt.other "return 1" [] 2] = b :: bs →
        bodyStartLine [Stmt.other "return 1" [] 2] 1 = b.linenoOf) ∧
      (1 < bodyStartLine [Stmt.other "return 1" [] 2] 1 →
        ¬ (bodyStartLine [Stmt.other "return 1" [] 2] 1 ≤ 1 ∧ 1 ≤ 2)) :=
  collect_body_ranges_spec
    ⟨[.functionDef false "g" "" [.other "return 1" [] 2] 1 (some 2)]⟩
    false "g" "" [Stmt.other "return 1" [] 2] 1 2
    (by
      show _ ∈ stmtsNodes _
      rw [show stmtsNodes
          [.functionDef false "g" "" [.other "return 1" [] 2] 1 (some 2)]
          = Stmt.functionDef false "g" "" [.other "return 1" [] 2] 1 (some 2)
            :: stmtsNodes [.other "return 1" [] 2] from rfl]
      exact List.mem_cons_self _ _)

/-- C3: the full pipeline is not idempotent.  On `def f():` with body
`return 1` the first pass leaves only the placeholder in the body; on the
second pass that placeholder satisfies `is_docstring`, is retained as the
docstring, and a fresh placeholder is appended, so the output grows by one
line instead of being byte-identical. -/
theorem summarise_not_idempotent :
    summarise "def f():\n    return 1"
        = some "def f():\n    \"\"\"(implementation not shown)\"\"\"" ∧
      summarise "def f():\n    \"\"\"(implementation not shown)\"\"\""
        = some ("def f():\n    \"\"\"(implementation not shown)\"\"\""
            ++ "\n    '(implementation not shown)'") ∧
      some ("def f():\n    \"\"\"(implementation not shown)\"\"\""
          ++ "\n    '(implementation not shown)'")
        ≠ some "def f():\n    \"\"\"(implementation not shown)\"\"\"" :=
  ⟨rfl, rfl, by decide⟩

/-- C7: whenever the source parses, the final output is the kept comment
lines joined by single newlines, a blank-line separator, then the rendered
code; and exactly the rendered code, with no leading block or separator,
when no comment is kept. -/
theorem summarise_output_assembly (src : String) (tree : Module)
    (h : parsePy src = some tree) :
    summarise src
      = some
          (if get_toplevel_comments (tokenizeComments src)
              (collect_body_ranges tree) = [] then
            unparseModule (outline tree)
          else
            String.intercalate "\n"
                (get_toplevel_comments (tokenizeComments src)
                  (collect_body_ranges tree))
              ++ "\n\n" ++ unparseModule (outline tree)) := by
  unfold summarise
  rw [h]
  cases hc : get_toplevel_comments (tokenizeComments src)
      (collect_body_ranges tree) with
  | nil =>
      simp only [hc, List.isEmpty_nil, if_true]
      rfl
  | cons c cs =>
      simp only [hc, List.isEmpty_cons, if_neg (List.cons_ne_nil c cs)]
      show some (String.intercalate "\n\n"
        [String.intercalate "\n" (c :: cs), unparseModule (outline tree)]) = _
      rw [show String.intercalate "\n\n"
          [String.intercalate "\n" (c :: cs), unparseModule (outline tree)]
          = String.intercalate "\n" (c :: cs) ++ "\n\n"
            ++ unparseModule (outline tree) from rfl]

/-- Witness for `summarise_output_assembly`, at the two-line source
`def f():` / `    return 1` and its parsed tree. -/
theorem summarise_output_assembly_witness :
    summarise "def f():\n    return 1"
      = some
          (if get_toplevel_comments (tokenizeComments "def f():\n    return 1")
              (collect_body_ranges
                ⟨[.functionDef false "f" ""
                    [.other "return 1" [] 2] 1 (some 2)]⟩) = [] then
            unparseModule (outline
              ⟨[.functionDef false "f" ""
                  [.other "return 1" [] 2] 1 (some 2)]⟩)
          else
            String.intercalate "\n"
                (get_toplevel_comments
                  (tokenizeComments "def f():\n    return 1")
                  (collect_body_ranges
                    ⟨[.functionDef false "f" ""
                        [.other "return 1" [] 2] 1 (some 2)]⟩))
              ++ "\n\n"
              ++ unparseModule (outline
                  ⟨[.functionDef false "f" ""
                      [.other "return 1" [] 2] 1 (some 2)]⟩)) :=
  summarise_output_assembly "def f():\n    return 1"
    ⟨[.functionDef false "f" "" [.other "return 1" [] 2] 1 (some 2)]⟩ rfl

/-! ## Signature lines in the rendered output -/

/-- The header line of a rendered def at indentation `ind`: keyword, name,
original parameter-list text, colon. -/
def defLine (ind : Nat) (a : Bool) (n ar : String) : String :=
  indentStr ind ++ (if a then "async def " else "def ") ++ n ++ "(" ++ ar ++ "):"

theorem mem_unparseStmts (ind : Nat) (L : List Stmt) (s : Stmt) (hs : s ∈ L)
    (x : String) (hx : x ∈ unparseStmt ind s) : x ∈ unparseStmts ind L := by
  induction L with
  | nil => simp at hs
  | cons c rest ih =>
      rw [show unparseStmts ind (c :: rest)
          = unparseStmt ind c ++ unparseStmts ind rest from rfl]
      rcases List.mem_cons.mp hs with heq | hm
      · exact List.mem_append_left _ (heq ▸ hx)
      · exact List.mem_append_right _ (ih hm)

theorem unparseBody_suffix (ind : Nat) (c : Stmt) (rest : List Stmt) :
    ∃ pre, unparseBody ind (c :: rest) = pre ++ unparseStmts ind rest := by
  cases c with
  | expr e l =>
      cases e with
      | constStr d => exact ⟨[indentStr ind ++ docstringStr d], rfl⟩
      | constOther t => exact ⟨unparseStmt ind (.expr (.constOther t) l), rfl⟩
      | otherExpr t => exact ⟨unparseStmt ind (.expr (.otherExpr t) l), rfl⟩
  | functionDef a n ar body l e =>
      exact ⟨unparseStmt ind (.functionDef a n ar body l e), rfl⟩
  | classDef n b body l e => exact ⟨unparseStmt ind (.classDef n b body l e), rfl⟩
  | other p ch l => exact ⟨unparseStmt ind (.other p ch l), rfl⟩

theorem unparseBody_head (ind : Nat) (c : Stmt) (rest : List Stmt)
    (hnd : is_docstring c = false) :
    unparseBody ind (c :: rest) = unparseStmt ind c ++ unparseStmts ind rest := by
  cases c with
  | expr e l =>
      cases e with
      | constStr d => simp [is_docstring] at hnd
      | constOther t => rfl
      | otherExpr t => rfl
  | functionDef a n ar body l e => rfl
  | classDef n b body l e => rfl
  | other p ch l => rfl

theorem mem_unparseBody (ind : Nat) (L : List Stmt) (s : Stmt) (hs : s ∈ L)
    (hnd : is_docstring s = false)
    (x : String) (hx : x ∈ unparseStmt ind s) : x ∈ unparseBody ind L := by
  cases L with
  | nil => simp at hs
  | cons c rest =>
      rcases List.mem_cons.mp hs with heq | hm
      · subst heq
        rw [unparseBody_head ind s rest hnd]
        exact List.mem_append_left _ hx
      · obtain ⟨pre, hpre⟩ := unparseBody_suffix ind c rest
        rw [hpre]
        exact List.mem_append_right _ (mem_unparseStmts ind rest s hm x hx)

/-- C8: for every top-level or class-nested function/method of the input
module, the rendered output contains the full header line carrying the
keyword, the unchanged name and the unchanged parameter-list text. -/
theorem signature_preserved (m : Module) (a : Bool) (n ar : String)
    (body : List Stmt) (l : Nat) (e : Option Nat) :
    (Stmt.functionDef a n ar body l e ∈ m.body →
      defLine 0 a n ar ∈ unparseBody 0 (outline m).body) ∧
    (∀ cn cb cbody cl ce,
      Stmt.classDef cn cb cbody cl ce ∈ m.body →
      Stmt.functionDef a n ar body l e ∈ cbody →
      defLine 1 a n ar ∈ unparseBody 0 (outline m).body) := by
  constructor
  · intro hmem
    have hfn : strip_fn (.functionDef a n ar body l e) ∈ (visit_Module m).body := by
      rw [visit_Module_body_eq]
      exact List.mem_append_right _
        (List.mem_map_of_mem _ (List.mem_filter.mpr ⟨hmem, rfl⟩))
    have hline : defLine 0 a n ar
        ∈ unparseStmt 0 (strip_fn (.functionDef a n ar body l e)) := by
      rw [strip_fn_eq]
      exact List.mem_cons_self _ _
    have hnd : is_docstring (strip_fn (.functionDef a n ar body l e)) = false := by
      rw [strip_fn_eq]; rfl
    exact mem_unparseBody 0 (visit_Module m).body _ hfn hnd _ hline
  · intro cn cb cbody cl ce hcls hmem
    have hcls2 : visit_ClassDef (.classDef cn cb cbody cl ce)
        ∈ (visit_Module m).body := by
      rw [visit_Module_body_eq]
      exact List.mem_append_right _
        (List.mem_map_of_mem _ (List.mem_filter.mpr ⟨hcls, rfl⟩))
    have hfn : strip_fn (.functionDef a n ar body l e)
        ∈ docstringInit cbody ++ (cbody.filter Stmt.isFunctionDef).map strip_fn :=
      List.mem_append_right _
        (List.mem_map_of_mem _ (List.mem_filter.mpr ⟨hmem, rfl⟩))
    have hline1 : defLine 1 a n ar
        ∈ unparseStmt 1 (strip_fn (.functionDef a n ar body l e)) := by
      rw [strip_fn_eq]
      exact List.mem_cons_self _ _
    have hnd1 : is_docstring (strip_fn (.functionDef a n ar body l e)) = false := by
      rw [strip_fn_eq]; rfl
    have hbody1 := mem_unparseBody 1 _ _ hfn hnd1 _ hline1
    have hclsline : defLine 1 a n ar
        ∈ unparseStmt 0 (visit_ClassDef (.classDef cn cb cbody cl ce)) := by
      rw [visit_ClassDef_body_eq]
      exact List.mem_cons_of_mem _ hbody1
    have hnd2 : is_docstring (visit_ClassDef (.classDef cn cb cbody cl ce))
        = false := by
      rw [visit_ClassDef_body_eq]; rfl
    exact mem_unparseBody 0 _ _ hcls2 hnd2 _ hclsline

/-- Witness for `signature_preserved`: a module holding `def f(x):` and a
class `C` with method `def m(self):`; both header lines are in the rendered
line list. -/
theorem signature_preserved_witness :
    defLine 0 false "f" "x"
        ∈ unparseBody 0
          (outline ⟨[.functionDef false "f" "x" [.other "pass" [] 2] 1 (some 2),
            .classDef "C" ""
              [.functionDef false "m" "self" [.other "pass" [] 5] 4 (some 5)]
              3 (some 5)]⟩).body ∧
      defLine 1 false "m" "self"
        ∈ unparseBody 0
          (outline ⟨[.functionDef false "f" "x" [.other "pass" [] 2] 1 (some 2),
            .classDef "C" ""
              [.functionDef false "m" "self" [.other "pass" [] 5] 4 (some 5)]
              3 (some 5)]⟩).body :=
  ⟨(signature_preserved
      ⟨[.functionDef false "f" "x" [.other "pass" [] 2] 1 (some 2),
        .classDef "C" ""
          [.functionDef false "m" "self" [.other "pass" [] 5] 4 (some 5)]
          3 (some 5)]⟩
      false "f" "x" [.other "pass" [] 2] 1 (some 2)).1
      (List.mem_cons_self _ _),
    (signature_preserved
      ⟨[.functionDef false "f" "x" [.other "pass" [] 2] 1 (some 2),
        .classDef "C" ""
          [.functionDef false "m" "self" [.other "pass" [] 5] 4 (some 5)]
          3 (some 5)]⟩
      false "m" "self" [.other "pass" [] 5] 4 (some 5)).2
      "C" "" [.functionDef false "m" "self" [.other "pass" [] 5] 4 (some 5)]
      3 (some 5)
      (List.mem_cons_of_mem _ (List.mem_cons_self _ _))
      (List.mem_cons_self _ _)⟩

/-! ## Totality of the transformer

The only operations of `Outline` that could fail on some tree shape are the
`node.body[0]` subscripts (guarded in the source by `node.body and ...`).
The checked variants below make every such access explicit through `head?`
and propagate failure; totality is the statement that they succeed on every
tree, with the same result as the direct translation. -/

/-- `node.body and is_docstring(node.body[0])` with the subscript explicit:
when the body is nonempty, `body[0]` is looked up and may in principle
fail. -/
def keptDocstringChecked (body : List Stmt) : Option (List Stmt) :=
  if body.isEmpty then some []
  else
    match body.head? with
    | some b => some (if is_docstring b then [b] else [])
    | none => none

/-- `_strip_fn` with explicit failure points. -/
def strip_fnChecked : Stmt → Option Stmt
  | .functionDef a n ar body l e =>
      (keptDocstringChecked body).map
        (fun init => .functionDef a n ar (init ++ [placeholder]) l e)
  | s => some s

/-- The loop of `visit_ClassDef` with explicit failure points. -/
def foldFnChildren : List Stmt → List Stmt → Option (List Stmt)
  | [], init => some init
  | c :: rest, init =>
      if c.isFunctionDef then
        match strip_fnChecked c with
        | some c2 => foldFnChildren rest (init ++ [c2])
        | none => none
      else foldFnChildren rest init

/-- `visit_ClassDef` with explicit failure points. -/
def visit_ClassDefChecked : Stmt → Option Stmt
  | .classDef n b body l e =>
      match keptDocstringChecked body with
      | some init => (foldFnChildren body init).map
          (fun nb => .classDef n b nb l e)
      | none => none
  | s => some s

/-- The dispatch of `visit_Module`'s loop with explicit failure points. -/
def visitChildChecked (s : Stmt) : Option Stmt :=
  match s with
  | .classDef _ _ _ _ _ => visit_ClassDefChecked s
  | .functionDef _ _ _ _ _ _ => strip_fnChecked s
  | s => some s

/-- The loop of `visit_Module` with explicit failure points. -/
def foldDefChildren : List Stmt → List Stmt → Option (List Stmt)
  | [], init => some init
  | c :: rest, init =>
      if c.isDefStmt then
        match visitChildChecked c with
        | some c2 => foldDefChildren rest (init ++ [c2])
        | none => none
      else foldDefChildren rest init

/-- The whole transformer with explicit failure points. -/
def outlineChecked (m : Module) : Option Module :=
  match keptDocstringChecked m.body with
  | some init => (foldDefChildren m.body init).map Module.mk
  | none => none

theorem keptDocstringChecked_eq (body : List Stmt) :
    keptDocstringChecked body
      = some (match body with
          | [] => []
          | c :: _ => if is_docstring c then [c] else []) := by
  cases body <;> rfl

theorem strip_fnChecked_eq (s : Stmt) :
    strip_fnChecked s = some (strip_fn s) := by
  cases s with
  | functionDef a n ar body l e =>
      rw [show strip_fnChecked (.functionDef a n ar body l e)
          = (keptDocstringChecked body).map
              (fun init => .functionDef a n ar (init ++ [placeholder]) l e)
          from rfl, keptDocstringChecked_eq]
      cases body <;> rfl
  | expr e l => rfl
  | classDef n b body l e => rfl
  | other p c l => rfl

theorem foldFnChildren_eq (body : List Stmt) : ∀ init,
    foldFnChildren body init
      = some (body.foldl
          (fun acc child =>
            if child.isFunctionDef then acc ++ [strip_fn child] else acc)
          init) := by
  induction body with
  | nil => intro init; rfl
  | cons c rest ih =>
      intro init
      cases hc : c.isFunctionDef with
      | true => simp [foldFnChildren, hc, strip_fnChecked_eq, ih]
      | false => simp [foldFnChildren, hc, ih]

theorem visit_ClassDefChecked_eq (s : Stmt) :
    visit_ClassDefChecked s = some (visit_ClassDef s) := by
  cases s with
  | classDef n b body l e =>
      simp only [visit_ClassDefChecked, keptDocstringChecked_eq,
        foldFnChildren_eq, Option.map_some]
      rfl
  | expr e l => rfl
  | functionDef a n ar body l e => rfl
  | other p c l => rfl

theorem visitChildChecked_eq (s : Stmt) :
    visitChildChecked s = some (visitChild s) := by
  cases s with
  | classDef n b body l e =>
      simp only [visitChildChecked, visitChild]
      exact visit_ClassDefChecked_eq _
  | functionDef a n ar body l e =>
      simp only [visitChildChecked, visitChild]
      exact strip_fnChecked_eq _
  | expr e l => rfl
  | other p c l => rfl

theorem foldDefChildren_eq (body : List Stmt) : ∀ init,
    foldDefChildren body init
      = some (body.foldl
          (fun acc child =>
            if child.isDefStmt then acc ++ [visitChild child] else acc)
          init) := by
  induction body with
  | nil => intro init; rfl
  | cons c rest ih =>
      intro init
      cases hc : c.isDefStmt with
      | true => simp [foldDefChildren, hc, visitChildChecked_eq, ih]
      | false => simp [foldDefChildren, hc, ih]

/-- C9: the Outline transformation is total — with every partial operation
(the `body[0]` subscripts) made explicit, it succeeds on every syntax tree,
whatever combination and nesting of module, class and function nodes,
docstrings and other members the tree holds, and returns the direct
translation's result. -/
theorem outline_total (m : Module) : outlineChecked m = some (outline m) := by
  simp only [outlineChecked, keptDocstringChecked_eq, foldDefChildren_eq,
    Option.map_some]
  rfl

/-- C10: the pipeline is deterministic — the output depends only on the
input text.  The embedding is stateless exactly as the script is: the
`Outline` instance, token stream and ranges are rebuilt from scratch on
every invocation, so equal inputs give equal outputs. -/
theorem summarise_deterministic (s1 s2 : String) (h : s1 = s2) :
    summarise s1 = summarise s2 := by
  rw [h]

/-- Witness for `summarise_deterministic` at a concrete input. -/
theorem summarise_deterministic_witness :
    summarise "def f():\n    pass" = summarise "def f():\n    pass" :=
  summarise_deterministic "def f():\n    pass" "def f():\n    pass" rfl

end PySummariser
